import Mathlib

set_option maxHeartbeats 1000000
set_option maxRecDepth 8000

/-!
# Verification of the hour-report aggregation core (`src/main.py`)

Shallow embedding of the data-transformation core of the Streamlit
hour-report application: the tolerant duration parser `_parse_hours`, the
per-user / per-epic / per-sprint aggregations, the daily workload
distributor and the efficiency classifier.

Modelling conventions:
* Python / pandas floats are modelled as `ℚ` (exact arithmetic; the spec
  allows for floating rounding where it matters).  `float(...)` is
  modelled with its full literal grammar (sign, `nan` / `inf` /
  `infinity` case-insensitively, digit parts with grouping underscores,
  point floats, exponents); the three-valued result (`PyF`) keeps the
  IEEE specials, and a documented projection to `ℚ` feeds the
  aggregations.  Unicode digits, accepted by `float`, are outside the
  model.
* A pandas `NaN` cell is modelled as `none` of an `Option` type.
* Timestamps parsed by `pd.to_datetime(..., errors="coerce")` are modelled
  as `Option ℤ` holding seconds on a linear clock (the exported format
  `%d/%m/%Y %H:%M:%S` has second resolution), so a timestamp's
  time-of-day is the residue mod 86400; the library date parser itself
  is outside the embedding boundary, `none` standing for `NaT`.
* Python strings are handled as `List Char`; `str.strip` drops the
  `str.isspace` whitespace characters at both ends, `str.lower` is ASCII
  lowercasing plus the accented capital of the completion literal.
-/

namespace HoursReport

/-! ## Characters, digits, Python string helpers -/

/-- Numeric value of a run of decimal digits, as Python `int` does
(leading zeros allowed). -/
def digitsToNat (l : List Char) : Nat :=
  l.foldl (fun n c => 10 * n + (c.toNat - 48)) 0

/-- Characters Python `str.isspace()` recognizes (the set `str.strip()`
removes): ASCII whitespace including vertical tab, form feed and the
file/group/record/unit separators, plus the Unicode space characters. -/
def pyIsSpace (c : Char) : Bool :=
  c == ' ' || c == '\t' || c == '\n' || c == '\r' || c == '\x0b' || c == '\x0c' ||
  (decide ('\x1c' ≤ c) && decide (c ≤ '\x1f')) || c == '\x85' || c == '\xa0' ||
  c == '\u1680' || (decide ('\u2000' ≤ c) && decide (c ≤ '\u200a')) ||
  c == '\u2028' || c == '\u2029' || c == '\u202f' || c == '\u205f' || c == '\u3000'

/-- Python `str.strip()` on the character list. -/
def pyStrip (cs : List Char) : List Char :=
  ((cs.dropWhile pyIsSpace).reverse.dropWhile pyIsSpace).reverse

/-- Python `str.lower()` restricted to the characters this data set uses:
ASCII letters plus the accented capital in the completion literal
"Concluído". -/
def pyLowerChar (c : Char) : Char :=
  if c = 'Í' then 'í' else c.toLower

/-- Python `str.lower` on a whole string. -/
def pyLower (s : String) : String :=
  ⟨s.data.map pyLowerChar⟩

/-! ## `_parse_hours` (src/main.py lines 20–43) -/

/-- The regex `^\d+:\d+$` of `_parse_hours`, returning the two integer
groups (hours, minutes) on a match.  `\d+` is greedy but a digit run
cannot contain `:`, so take-while/drop-while is exact. -/
def hhmm? (cs : List Char) : Option (Nat × Nat) :=
  let d1 := cs.takeWhile Char.isDigit
  match cs.dropWhile Char.isDigit with
  | ':' :: d2 =>
      if d1 ≠ [] ∧ d2 ≠ [] ∧ d2.all Char.isDigit then
        some (digitsToNat d1, digitsToNat d2)
      else none
  | _ => none

/-- Result of Python `float(...)`: a finite number, a signed infinity, or
the not-a-number value. -/
inductive PyF where
  | nan
  | inf (neg : Bool)
  | num (q : ℚ)
deriving DecidableEq

/-- Consume a Python `digitpart` — `digit (["_"] digit)*` — accumulating
its digits (grouping underscores dropped) and returning the rest.  An
underscore is consumed only between two digits, as `float` requires. -/
def digitPartAux (acc : List Char) : List Char → List Char × List Char
  | '_' :: c :: rest =>
      if c.isDigit then digitPartAux (acc ++ [c]) rest else (acc, '_' :: c :: rest)
  | c :: rest =>
      if c.isDigit then digitPartAux (acc ++ [c]) rest else (acc, c :: rest)
  | [] => (acc, [])

/-- Parse a Python `digitpart`; fails unless the input starts with a
digit. -/
def digitPart? (cs : List Char) : Option (List Char × List Char) :=
  match cs with
  | c :: rest => if c.isDigit then some (digitPartAux [c] rest) else none
  | [] => none

/-- Mantissa of a float literal — `digitpart`, `digitpart "." digitpart?`
or `"." digitpart` — returning integer digits, fraction digits and the
rest of the input. -/
def floatMantissa? (cs : List Char) : Option (List Char × List Char × List Char) :=
  match digitPart? cs with
  | some (ip, rest) =>
    match rest with
    | '.' :: rest2 =>
      match digitPart? rest2 with
      | some (fp, rest3) => some (ip, fp, rest3)
      | none => some (ip, [], rest2)
    | _ => some (ip, [], rest)
  | none =>
    match cs with
    | '.' :: rest2 =>
      match digitPart? rest2 with
      | some (fp, rest3) => some ([], fp, rest3)
      | none => none
    | _ => none

/-- Exponent part `("e" | "E") sign? digitpart` of a float literal,
returning the exponent sign, its digits and the rest of the input. -/
def floatExponent? (cs : List Char) : Option (Bool × List Char × List Char) :=
  match cs with
  | c :: rest =>
    if c = 'e' ∨ c = 'E' then
      match rest with
      | '+' :: r2 => (digitPart? r2).map fun p => (false, p.1, p.2)
      | '-' :: r2 => (digitPart? r2).map fun p => (true, p.1, p.2)
      | _ => (digitPart? rest).map fun p => (false, p.1, p.2)
    else none
  | [] => none

/-- Finite numeric Python float literal without its sign: a mantissa with
an optional exponent, consuming the whole string. -/
def finiteFloat? (cs : List Char) : Option ℚ :=
  match floatMantissa? cs with
  | some (ip, fp, rest) =>
    match rest with
    | [] => some ((digitsToNat ip : ℚ) + (digitsToNat fp : ℚ) / 10 ^ fp.length)
    | _ =>
      match floatExponent? rest with
      | some (negE, ed, r3) =>
        if r3 = [] then
          some (if negE then
                  ((digitsToNat ip : ℚ) + (digitsToNat fp : ℚ) / 10 ^ fp.length)
                    / 10 ^ digitsToNat ed
                else
                  ((digitsToNat ip : ℚ) + (digitsToNat fp : ℚ) / 10 ^ fp.length)
                    * 10 ^ digitsToNat ed)
        else none
      | none => none
  | none => none

/-- Unsigned part of `float(...)`: the case-insensitive `nan` / `inf` /
`infinity` literals, else a finite literal carrying the already-seen
sign.  `float("-nan")` is NaN like `float("nan")`. -/
def floatUnsigned? (cs : List Char) (neg : Bool) : Option PyF :=
  if cs.map Char.toLower = ['n', 'a', 'n'] then some PyF.nan
  else if cs.map Char.toLower = ['i', 'n', 'f']
      ∨ cs.map Char.toLower = ['i', 'n', 'f', 'i', 'n', 'i', 't', 'y'] then
    some (PyF.inf neg)
  else (finiteFloat? cs).map fun q => PyF.num (if neg then -q else q)

/-- Model of Python `float(...)` on an already-stripped string: optional
sign, then a special literal or a finite literal (see the module
header). -/
def pyFloat? (cs : List Char) : Option PyF :=
  match cs with
  | '-' :: rest => floatUnsigned? rest true
  | '+' :: rest => floatUnsigned? rest false
  | _ => floatUnsigned? cs false

/-- The fallback `re.search(r"(\d+[\.,]?\d*)", raw)` of `_parse_hours`.
It runs on the comma-replaced string, so no comma can occur; the first
match is the earliest digit, greedily extended over digits, an optional
dot and further digits, then parsed by `float`. -/
def findNumber? (cs : List Char) : Option ℚ :=
  match cs with
  | [] => none
  | c :: rest =>
    if c.isDigit then
      let ds := (c :: rest).takeWhile Char.isDigit
      some (match (c :: rest).dropWhile Char.isDigit with
            | '.' :: r3 =>
                (digitsToNat ds : ℚ)
                  + (digitsToNat (r3.takeWhile Char.isDigit) : ℚ)
                      / 10 ^ (r3.takeWhile Char.isDigit).length
            | _ => (digitsToNat ds : ℚ))
    else findNumber? rest

/-- Decimal-separator replacement `raw.replace(",", ".")` (line 37),
character by character. -/
def commaToDot (c : Char) : Char :=
  if c = ',' then '.' else c

/-- Model of `_parse_hours` (src/main.py lines 20–43).  The raw cell is
`Option String`, `none` modelling a pandas `NaN` (`pd.isna`);  the result
keeps the IEEE specials a successful `float(...)` can produce.  The
comma-replaced string (Python rebinds `raw` at line 37) is written out as
`(pyStrip s.data).map commaToDot` at both of its uses. -/
def pyParseHoursF (raw : Option String) : PyF :=
  match raw with
  | none => PyF.num 0
  | some s =>
    if pyStrip s.data = [] then PyF.num 0
    else
      match hhmm? (pyStrip s.data) with
      | some (h, m) => PyF.num ((h : ℚ) + (m : ℚ) / 60)
      | none =>
        match pyFloat? ((pyStrip s.data).map commaToDot) with
        | some v => v
        | none =>
          match findNumber? ((pyStrip s.data).map commaToDot) with
          | some q => PyF.num q
          | none => PyF.num 0

/-- Finite projection of a parsed duration used by the aggregation
models.  A NaN cell projected to 0 agrees with the pandas pipelines
downstream (group `sum` and `mean` skip NaN, and the per-task
`efficiency` NaN is caught by `fillna(0)`); a ±inf duration literal
(absent from real duration exports) is also projected to 0 — a
documented model boundary, see C6 for the faithful three-valued view. -/
def pyFToQ : PyF → ℚ
  | PyF.num q => q
  | PyF.nan => 0
  | PyF.inf _ => 0

/-- Rational shadow of `_parse_hours`, the value the aggregation models
consume. -/
def pyParseHours (raw : Option String) : ℚ :=
  pyFToQ (pyParseHoursF raw)

/-! ## Task rows

One CSV row, with the columns the core reads.  Raw duration cells stay
strings (they are parsed by `_parse_hours` inside each function); the two
sprint-date cells are the result of `pd.to_datetime(..., errors="coerce")`,
i.e. an optional timestamp in seconds (carrying its time-of-day as the
residue mod 86400).  A `NaN` state cell behaves like a string that is not
the completion literal, so `state` is a plain string. -/

structure Row where
  number : Nat
  assigned_to : Option String
  state : String
  u_horas_planejadas : Option String
  u_horas_reais : Option String
  story_epic : Option String
  story_sprint : Option String
  start_date : Option ℤ
  end_date : Option ℤ
deriving DecidableEq

/-- Completion test `df["state"].str.lower() == "concluído"` on one row. -/
def isDone (r : Row) : Bool := pyLower r.state == "concluído"

/-- Parsed planned-hours column entry of a row. -/
def plannedOf (r : Row) : ℚ := pyParseHours r.u_horas_planejadas

/-- Parsed real-hours column entry of a row. -/
def realOf (r : Row) : ℚ := pyParseHours r.u_horas_reais

/-! ## Sorting (pandas sorts group keys / `sort_values`) -/

/-- Insert into a sorted list (insertion step of a comparison sort). -/
def insSorted (le : α → α → Bool) (x : α) : List α → List α
  | [] => [x]
  | y :: ys => if le x y then x :: y :: ys else y :: insSorted le x ys

/-- Comparison sort; models the sorted output of pandas `groupby` /
`sort_values` (group keys are distinct, so which sorting algorithm runs
is observationally irrelevant). -/
def insSort (le : α → α → Bool) : List α → List α
  | [] => []
  | x :: xs => insSorted le x (insSort le xs)

/-- Ascending string order used for `assigned_to` / `story.sprint` keys. -/
def strLe (a b : String) : Bool := decide (a ≤ b)

/-! ## `summarize_hours` (src/main.py lines 46–84) -/

/-- Estimation-accuracy column of `summarize_hours` (lines 71–82):
`(100 - abs(difference / planned.replace(0, nan) * 100)).fillna(0).clip(0, 100)`.
`none` models the `NaN` produced by `replace(0, nan)` and propagated by
the arithmetic. -/
def estimation_accuracy (tp diff : ℚ) : ℚ :=
  let denom : Option ℚ := if tp = 0 then none else some tp
  let raw : Option ℚ := denom.map fun t => 100 - |diff / t * 100|
  min 100 (max 0 (raw.getD 0))

/-- One output row of `summarize_hours`. -/
structure UserRow where
  assigned_to : String
  total_planned_hours : ℚ
  total_real_hours : ℚ
  difference : ℚ
  estimation_accuracy : ℚ
deriving DecidableEq

/-- Aggregation of one assignee group of `summarize_hours`: the group's
row sums plus the derived `difference` and `estimation_accuracy` columns. -/
def userRowFor (done : List Row) (k : String) : UserRow :=
  let grp := done.filter (fun r => r.assigned_to == some k)
  let tp := (grp.map plannedOf).sum
  let tr := (grp.map realOf).sum
  ⟨k, tp, tr, tr - tp, estimation_accuracy tp (tr - tp)⟩

/-- Model of `summarize_hours` (src/main.py lines 46–84): parse the two
duration columns, keep completed tasks, group by `assigned_to` (pandas
`groupby` drops `NaN` keys), sum each group, sort by assignee, then add
`difference` and `estimation_accuracy`. -/
def summarize_hours (rows : List Row) : List UserRow :=
  (insSort strLe (((rows.filter isDone).filterMap (fun r => r.assigned_to)).dedup)).map
    (userRowFor (rows.filter isDone))

/-! ## `get_epic_summary` / `get_sprint_summary` (src/main.py lines 94–144) -/

/-- One output row of the epic / sprint summaries. -/
structure GroupRow where
  key : String
  num_tasks : Nat
  total_planned_hours : ℚ
  total_real_hours : ℚ
  pct_completed : ℚ
  difference : ℚ
deriving DecidableEq

/-- Epic filter of `get_epic_summary` (line 100):
`df["story.epic"].notna() & (df["story.epic"] != "")`. -/
def hasEpic (r : Row) : Bool :=
  match r.story_epic with
  | some s => s != ""
  | none => false

/-- Aggregation of one group for the epic / sprint summaries:
`num_tasks` is the count of rows, `pct_completed` the mean of the
completion indicator times 100 (groupby groups are nonempty). -/
def groupRowFor (rows : List Row) (keyOf : Row → Option String) (k : String) : GroupRow :=
  let grp := rows.filter (fun r => keyOf r == some k)
  let tp := (grp.map plannedOf).sum
  let tr := (grp.map realOf).sum
  let pct := (((grp.filter isDone).length : ℚ) / (grp.length : ℚ)) * 100
  ⟨k, grp.length, tp, tr, pct, tr - tp⟩

/-- Model of `get_epic_summary` (src/main.py lines 94–119): drop rows
with an absent or empty epic, group by epic, aggregate and sort by
`num_tasks` descending. -/
def get_epic_summary (rows : List Row) : List GroupRow :=
  insSort (fun a b => decide (b.num_tasks ≤ a.num_tasks))
    ((((rows.filter hasEpic).filterMap (fun r => r.story_epic)).dedup).map
      (groupRowFor (rows.filter hasEpic) (fun r => r.story_epic)))

/-- Model of `get_sprint_summary` (src/main.py lines 122–144): group all
rows by sprint (pandas `groupby` drops `NaN` keys), aggregate and sort
ascending by sprint key. -/
def get_sprint_summary (rows : List Row) : List GroupRow :=
  (insSort strLe ((rows.filterMap (fun r => r.story_sprint)).dedup)).map
    (groupRowFor rows (fun r => r.story_sprint))

/-! ## `get_daily_workload` (src/main.py lines 147–209) -/

/-- One row of the daily-load table. -/
structure DailyLoadPoint where
  date : ℤ
  planned_hours : ℚ
  real_hours : ℚ
deriving DecidableEq

/-- Minimum of a list of days (`Series.min`); `none` on an empty list. -/
def listMin? : List ℤ → Option ℤ
  | [] => none
  | a :: as =>
    some (match listMin? as with
          | none => a
          | some m => min a m)

/-- Maximum of a list of days (`Series.max`); `none` on an empty list. -/
def listMax? : List ℤ → Option ℤ
  | [] => none
  | a :: as =>
    some (match listMax? as with
          | none => a
          | some m => max a m)

/-- pandas `Timedelta.days` of a difference of `t` seconds: floor
division by 86400 (the `/` on ℤ is Euclidean division, which for the
positive constant divisor 86400 is floor division). -/
def pdDays (t : ℤ) : ℤ := t / 86400

/-- Model of `pd.date_range(start, end, freq="D")` on second-resolution
timestamps: `start, start + 86400, start + 2·86400, …` while `≤ end`
(empty when `end < start`).  Every generated timestamp keeps `start`'s
time-of-day. -/
def dateRange (s e : ℤ) : List ℤ :=
  (List.range (pdDays (e - s) + 1).toNat).map fun i : ℕ => s + 86400 * (i : ℤ)

/-- Rows kept by `df.dropna(subset=["start_date", "end_date"])`. -/
def bothDates (r : Row) : Bool := r.start_date.isSome && r.end_date.isSome

/-- Per-day contribution of one task in the distribution loop (lines
186–202): when `task_days = (end - start).days + 1 > 0`, the task puts
`hours / task_days` on each timestamp of its own `date_range` that is
also a member of the global index (the `if date in daily_load.index`
guard of line 196 — `d` below ranges over the index, and `d ∈ dateRange
start end` is exactly "this task's loop visits `d`").  A task whose
timestamps are not aligned with the global start's time-of-day generates
dates outside the index and contributes nothing.  The loop's accumulation
over tasks is modelled as the sum of these contributions per index day
(exact ℚ addition is commutative and associative, so the iteration order
is irrelevant). -/
def dailyContrib (hoursOf : Row → ℚ) (r : Row) (d : ℤ) : ℚ :=
  match r.start_date, r.end_date with
  | some s, some e =>
      if 0 < pdDays (e - s) + 1 ∧ d ∈ dateRange s e then
        hoursOf r / ((pdDays (e - s) + 1 : ℤ) : ℚ)
      else 0
  | _, _ => 0

/-- Model of `get_daily_workload` (src/main.py lines 147–209).
`hasDateCols` models the presence of the two sprint-date columns; the
rows carry the already-coerced timestamps (seconds).  A `none` result
models the function's `return None` paths (including the blanket
`except` — the model is total, so no other outcome exists). -/
def get_daily_workload (hasDateCols : Bool) (rows : List Row) : Option (List DailyLoadPoint) :=
  if ¬ hasDateCols then none
  else if rows.all (fun r => r.start_date == none) || rows.all (fun r => r.end_date == none) then
    none
  else if (rows.filter bothDates).isEmpty then none
  else
    match listMin? ((rows.filter bothDates).filterMap fun r => r.start_date),
          listMax? ((rows.filter bothDates).filterMap fun r => r.end_date) with
    | some s0, some e0 =>
        some ((dateRange s0 e0).map fun d =>
          ⟨d, ((rows.filter bothDates).map fun r => dailyContrib plannedOf r d).sum,
              ((rows.filter bothDates).map fun r => dailyContrib realOf r d).sum⟩)
    | _, _ => none

/-! ## `prepare_tasks_data` efficiency and `categorize_efficiency` -/

/-- Efficiency column of `prepare_tasks_data` (lines 224–227):
`(planned / real.replace(0, nan)).fillna(0)` then `.clip(0, 2)`. -/
def efficiency (planned realH : ℚ) : ℚ :=
  let denom : Option ℚ := if realH = 0 then none else some realH
  let q : Option ℚ := denom.map fun rr => planned / rr
  min 2 (max 0 (q.getD 0))

/-- Model of `categorize_efficiency` (src/main.py lines 800–812). -/
def categorize_efficiency (eff : ℚ) : String :=
  if eff = 0 then "Sem estimativa"
  else if eff < 0.5 then "Muito abaixo (>200%)"
  else if eff < 0.8 then "Abaixo (125-200%)"
  else if eff < 1.25 then "Adequada (80-125%)"
  else if eff < 2 then "Acima (50-80%)"
  else "Muito acima (<50%)"

/-! ## In-place column effects on the shared DataFrame

The aggregation functions receive the caller's DataFrame.  Several of
them assign derived columns into it in place (`df["planned_hours"] = ...`),
which is visible to the caller.  `DF` models a DataFrame as its task rows
plus its schema (the set of column names); each `*_effect` function below
computes the state of the frame a caller observes after the call, whether
the call returns or raises: a `df[col]` read of a missing column raises
`KeyError` at that line, so only the assignments before it have happened.
`summarize_hours` reads its own CSV and touches no shared frame. -/

structure DF where
  rows : List Row
  cols : List String
deriving DecidableEq

/-- Column assignment `df[c] = ...`: adds the column name if absent. -/
def addCol (cols : List String) (c : String) : List String :=
  if c ∈ cols then cols else cols ++ [c]

/-- Effect of `get_epic_summary` on its argument frame.  Line 96 first
reads `df["u_horas_planejadas"]`: if that column is missing, `KeyError`
propagates before any assignment and the frame is untouched; otherwise
`planned_hours` is assigned, and line 97 then reads `u_horas_reais` (if
missing, only `planned_hours` was assigned); with both raw columns
present, both derived columns are assigned in place.  Any later
`KeyError` (`story.epic`, `number`, `state`) fires after these
assignments and changes no further column. -/
def get_epic_summary_effect (df : DF) : DF :=
  if "u_horas_planejadas" ∉ df.cols then df
  else if "u_horas_reais" ∉ df.cols then { df with cols := addCol df.cols "planned_hours" }
  else { df with cols := addCol (addCol df.cols "planned_hours") "real_hours" }

/-- Effect of `get_sprint_summary` on its argument frame: lines 124–125
mirror lines 96–97 of `get_epic_summary`, including the `KeyError`
behaviour on missing raw duration columns. -/
def get_sprint_summary_effect (df : DF) : DF :=
  if "u_horas_planejadas" ∉ df.cols then df
  else if "u_horas_reais" ∉ df.cols then { df with cols := addCol df.cols "planned_hours" }
  else { df with cols := addCol (addCol df.cols "planned_hours") "real_hours" }

/-- Effect of `get_daily_workload` on its argument: when the two sprint
date columns exist, lines 158–163 assign the `start_date` and `end_date`
columns in place (before any of the `return None` checks). -/
def get_daily_workload_effect (df : DF) : DF :=
  if "story.sprint.start_date" ∈ df.cols ∧ "story.sprint.end_date" ∈ df.cols then
    { df with cols := addCol (addCol df.cols "start_date") "end_date" }
  else df

/-- Effect of `prepare_tasks_data` on its argument: line 215 copies the
frame first, so the argument is untouched. -/
def prepare_tasks_data_effect (df : DF) : DF := df

/-! # Helper lemmas -/

/-- Membership is preserved by the insertion step. -/
lemma mem_insSorted {le : α → α → Bool} {x a : α} {l : List α} :
    a ∈ insSorted le x l ↔ a = x ∨ a ∈ l := by
  induction l with
  | nil => simp [insSorted]
  | cons y ys ih =>
    simp only [insSorted]
    split
    · simp
    · simp only [List.mem_cons, ih]
      tauto

/-- Sorting does not change the members of a list. -/
lemma mem_insSort {le : α → α → Bool} {a : α} {l : List α} :
    a ∈ insSort le l ↔ a ∈ l := by
  induction l with
  | nil => simp [insSort]
  | cons x xs ih => simp [insSort, mem_insSorted, ih]

/-- Key field of a user aggregation row. -/
@[simp] lemma userRowFor_assigned_to (done : List Row) (k : String) :
    (userRowFor done k).assigned_to = k := rfl

/-- Planned-hours field of a user aggregation row. -/
lemma userRowFor_planned (done : List Row) (k : String) :
    (userRowFor done k).total_planned_hours
      = (((done.filter (fun r => r.assigned_to == some k)).map plannedOf).sum) := rfl

/-- Accuracy field of a user aggregation row. -/
lemma userRowFor_accuracy (done : List Row) (k : String) :
    (userRowFor done k).estimation_accuracy
      = estimation_accuracy
          (((done.filter (fun r => r.assigned_to == some k)).map plannedOf).sum)
          ((((done.filter (fun r => r.assigned_to == some k)).map realOf).sum)
            - (((done.filter (fun r => r.assigned_to == some k)).map plannedOf).sum)) := rfl

/-- Key field of an epic / sprint aggregation row. -/
@[simp] lemma groupRowFor_key (rows : List Row) (keyOf : Row → Option String) (k : String) :
    (groupRowFor rows keyOf k).key = k := rfl

/-- A user aggregation row only depends on the rows of its own group. -/
lemma userRowFor_congr {d1 d2 : List Row} (k : String)
    (h : d1.filter (fun r => r.assigned_to == some k)
          = d2.filter (fun r => r.assigned_to == some k)) :
    userRowFor d1 k = userRowFor d2 k := by
  unfold userRowFor
  rw [h]

/-- An epic / sprint aggregation row only depends on its own group. -/
lemma groupRowFor_congr {d1 d2 : List Row} {keyOf : Row → Option String} (k : String)
    (h : d1.filter (fun r => keyOf r == some k) = d2.filter (fun r => keyOf r == some k)) :
    groupRowFor d1 keyOf k = groupRowFor d2 keyOf k := by
  unfold groupRowFor
  rw [h]

/-- Accuracy for a zero planned total is exactly 0 (the `fillna(0)` path). -/
lemma estimation_accuracy_zero (diff : ℚ) : estimation_accuracy 0 diff = 0 := by
  simp [estimation_accuracy]

/-- Accuracy is never below the 0 clip bound. -/
lemma estimation_accuracy_nonneg (tp diff : ℚ) : 0 ≤ estimation_accuracy tp diff := by
  unfold estimation_accuracy
  exact le_min (by norm_num) (le_max_left 0 _)

/-- Accuracy is never above the 100 clip bound. -/
lemma estimation_accuracy_le_100 (tp diff : ℚ) : estimation_accuracy tp diff ≤ 100 := by
  unfold estimation_accuracy
  exact min_le_left _ _

/-! # Claims -/

/-- C1: DurationParser test vector: parse("08:30") = 8.5, parse("4") = 4.0,
parse("4,75") = 4.75, parse("") = 0.0, parse(None) = 0.0, parse("abc") = 0.0,
and parse("4 horas extras") = 4.0. -/
theorem C1_duration_parser_test_vector :
    pyParseHours (some "08:30") = 8.5 ∧
    pyParseHours (some "4") = 4 ∧
    pyParseHours (some "4,75") = 4.75 ∧
    pyParseHours (some "") = 0 ∧
    pyParseHours none = 0 ∧
    pyParseHours (some "abc") = 0 ∧
    pyParseHours (some "4 horas extras") = 4 := by
  refine ⟨?_, ?_, ?_, ?_, ?_, ?_, ?_⟩ <;> with_unfolding_all decide

/-- C2: in every user-aggregation output row, estimationAccuracy is exactly 0
when totalPlannedHours = 0, and estimationAccuracy always lies in [0, 100]. -/
theorem C2_estimation_accuracy_bounds (rows : List Row) (g : UserRow)
    (hg : g ∈ summarize_hours rows) :
    (g.total_planned_hours = 0 → g.estimation_accuracy = 0) ∧
    0 ≤ g.estimation_accuracy ∧ g.estimation_accuracy ≤ 100 := by
  unfold summarize_hours at hg
  simp only [List.mem_map] at hg
  obtain ⟨k, hk, rfl⟩ := hg
  refine ⟨fun h0 => ?_, ?_, ?_⟩
  · rw [userRowFor_planned] at h0
    rw [userRowFor_accuracy, h0]
    exact estimation_accuracy_zero _
  · rw [userRowFor_accuracy]
    exact estimation_accuracy_nonneg _ _
  · rw [userRowFor_accuracy]
    exact estimation_accuracy_le_100 _ _

/-- C2 witness at a concrete record set. -/
theorem C2_witness :
    ((⟨"A", 2, 1, -1, 50⟩ : UserRow).total_planned_hours = 0 →
      (⟨"A", 2, 1, -1, 50⟩ : UserRow).estimation_accuracy = 0) ∧
    0 ≤ (⟨"A", 2, 1, -1, 50⟩ : UserRow).estimation_accuracy ∧
    (⟨"A", 2, 1, -1, 50⟩ : UserRow).estimation_accuracy ≤ 100 :=
  C2_estimation_accuracy_bounds
    [⟨1, some "A", "Concluído", some "2", some "1", none, none, none, none⟩]
    ⟨"A", 2, 1, -1, 50⟩ (by with_unfolding_all decide)

/-- C5: per task the efficiency value is plannedHours / realHours when
realHours is nonzero and 0 otherwise, clamped into [0, 2]; a task with
plannedHours = 0 is always categorized "Sem estimativa" regardless of its
realHours; and the remaining categories are decided by the exclusive upper
bounds 0.5, 0.8, 1.25, 2 in that order. -/
theorem C5_efficiency_classifier (p r : ℚ) :
    (r = 0 → efficiency p r = 0) ∧
    (r ≠ 0 → efficiency p r = min 2 (max 0 (p / r))) ∧
    (0 ≤ efficiency p r ∧ efficiency p r ≤ 2) ∧
    (p = 0 → categorize_efficiency (efficiency p r) = "Sem estimativa") ∧
    (∀ e : ℚ,
      (e = 0 → categorize_efficiency e = "Sem estimativa") ∧
      (e ≠ 0 → e < 0.5 → categorize_efficiency e = "Muito abaixo (>200%)") ∧
      (0.5 ≤ e → e < 0.8 → categorize_efficiency e = "Abaixo (125-200%)") ∧
      (0.8 ≤ e → e < 1.25 → categorize_efficiency e = "Adequada (80-125%)") ∧
      (1.25 ≤ e → e < 2 → categorize_efficiency e = "Acima (50-80%)") ∧
      (2 ≤ e → categorize_efficiency e = "Muito acima (<50%)")) := by
  have heff : ∀ q s : ℚ, 0 ≤ min 2 (max 0 q) ∧ min 2 (max 0 s) ≤ 2 :=
    fun q s => ⟨le_min (by norm_num) (le_max_left 0 _), min_le_left _ _⟩
  refine ⟨fun h0 => by simp [efficiency, h0], fun hne => by simp [efficiency, hne], ?_, ?_, ?_⟩
  · unfold efficiency
    by_cases h0 : r = 0
    · simp [h0]
    · simpa [h0] using ⟨(heff (p / r) (p / r)).1, (heff (p / r) (p / r)).2⟩
  · intro hp
    have h : efficiency p r = 0 := by
      unfold efficiency
      by_cases h0 : r = 0 <;> simp [h0, hp]
    rw [h]
    unfold categorize_efficiency
    simp
  · intro e
    unfold categorize_efficiency
    refine ⟨fun h => by simp [h], fun h1 h2 => ?_, fun h1 h2 => ?_, fun h1 h2 => ?_,
      fun h1 h2 => ?_, fun h1 => ?_⟩ <;>
      split_ifs with ha hb hc hd he₁ <;> first | rfl | (exfalso; first | exact h1 ha | linarith)

/-- C5 witness at concrete efficiency values. -/
theorem C5_witness :
    efficiency 3 2 = min 2 (max 0 ((3 : ℚ) / 2)) ∧
    categorize_efficiency 1.5 = "Acima (50-80%)" :=
  ⟨(C5_efficiency_classifier 3 2).2.1 (by norm_num),
   ((C5_efficiency_classifier 3 2).2.2.2.2 1.5).2.2.2.2.1 (by norm_num) (by norm_num)⟩

/-- C10: a task with plannedHours > 0 and realHours = 0 gets efficiency 0 and
is categorized "Sem estimativa": the bucket does not distinguish genuinely
unestimated tasks from estimated tasks with zero recorded actual hours. -/
theorem C10_zero_real_hours_no_estimate (p r : ℚ) (hp : 0 < p) (hr : r = 0) :
    efficiency p r = 0 ∧ categorize_efficiency (efficiency p r) = "Sem estimativa" := by
  subst hr
  have h : efficiency p 0 = 0 := by simp [efficiency]
  refine ⟨h, ?_⟩
  rw [h]
  unfold categorize_efficiency
  simp

/-- C10 witness at planned = 1, real = 0. -/
theorem C10_witness :
    efficiency 1 0 = 0 ∧ categorize_efficiency (efficiency 1 0) = "Sem estimativa" :=
  C10_zero_real_hours_no_estimate 1 0 (by norm_num) rfl

/-- C4: the user aggregation keeps only tasks whose state case-insensitively
equals the completion literal: a record set with no completed task yields an
empty result, and the 3-task scenario (A completed planned "4:00" actual
"5,00"; A completed planned "2" actual "1"; B not completed planned "3"
actual "0") yields exactly the single row (A, 6, 6, 0, 100). -/
theorem C4_user_aggregator_completed_only :
    (∀ rows : List Row, (∀ r ∈ rows, isDone r = false) → summarize_hours rows = []) ∧
    summarize_hours
      [⟨1, some "A", "Concluído", some "4:00", some "5,00", none, none, none, none⟩,
       ⟨2, some "A", "Concluído", some "2", some "1", none, none, none, none⟩,
       ⟨3, some "B", "Em andamento", some "3", some "0", none, none, none, none⟩]
      = [⟨"A", 6, 6, 0, 100⟩] := by
  constructor
  · intro rows h
    unfold summarize_hours
    rw [List.filter_eq_nil_iff.mpr (fun r hr => by simp [h r hr])]
    rfl
  · with_unfolding_all decide

/-- C4 witness: a record set whose only task is not completed yields an
empty user aggregation. -/
theorem C4_witness :
    summarize_hours
      [⟨3, some "B", "Em andamento", some "3", some "0", none, none, none, none⟩] = [] :=
  C4_user_aggregator_completed_only.1
    [⟨3, some "B", "Em andamento", some "3", some "0", none, none, none, none⟩]
    (by with_unfolding_all decide)

/-- C9: the daily workload distributor returns the unavailability sentinel
(`none`, not an error — the model is a total function) whenever the date
columns are missing or no task has both sprint dates parseable. -/
theorem C9_daily_workload_unavailable (hasCols : Bool) (rows : List Row)
    (h : hasCols = false ∨ ∀ r ∈ rows, r.start_date = none ∨ r.end_date = none) :
    get_daily_workload hasCols rows = none := by
  rcases h with h | h
  · subst h
    rfl
  · cases hasCols with
    | false => rfl
    | true =>
      unfold get_daily_workload
      by_cases hall :
          (rows.all (fun r => r.start_date == none) || rows.all (fun r => r.end_date == none)) = true
      · simp [hall]
      · have hwd : rows.filter bothDates = [] := by
          refine List.filter_eq_nil_iff.mpr (fun r hr => ?_)
          rcases h r hr with h1 | h1 <;> simp [bothDates, h1]
        simp [hall, hwd]

/-- C9 witness: one unparseable-date task, date columns present. -/
theorem C9_witness :
    get_daily_workload true
      [⟨1, some "A", "Concluído", some "2", some "1", none, some "S1", none, some 3⟩] = none :=
  C9_daily_workload_unavailable true
    [⟨1, some "A", "Concluído", some "2", some "1", none, some "S1", none, some 3⟩]
    (Or.inr (fun r hr => by
      rw [List.mem_singleton] at hr
      subst hr
      exact Or.inl rfl))

/-- C6 counterexample: the parser output is not non-negative on every raw
input — a direct float parse of a negative literal comes back negative,
and a case-insensitive NaN literal comes back NaN, which does not satisfy
`plannedHours ≥ 0` either. -/
theorem C6_counterexample :
    pyParseHours (some "-5") < 0 ∧ pyParseHoursF (some "NAN") = PyF.nan := by
  constructor <;> with_unfolding_all decide

/-- Characters of a raw duration cell (empty for an absent cell). -/
def rawChars : Option String → List Char
  | none => []
  | some s => s.data

/-- Stripping keeps only characters of the original string. -/
lemma pyStrip_subset {cs : List Char} : pyStrip cs ⊆ cs := by
  intro x hx
  unfold pyStrip at hx
  rw [List.mem_reverse] at hx
  have hx2 := (List.dropWhile_sublist _).subset hx
  rw [List.mem_reverse] at hx2
  exact (List.dropWhile_sublist _).subset hx2

/-- A finite float literal value is non-negative (the sign lives outside
`finiteFloat?`). -/
lemma finiteFloat?_nonneg {cs : List Char} {q : ℚ}
    (h : finiteFloat? cs = some q) : 0 ≤ q := by
  unfold finiteFloat? at h
  split at h
  · split at h
    · obtain rfl : _ = q := Option.some.inj h
      positivity
    · split at h
      · split at h
        · obtain rfl : _ = q := Option.some.inj h
          split
          · positivity
          · positivity
        · exact absurd h (by simp)
      · exact absurd h (by simp)
  · exact absurd h (by simp)

/-- Common shape of the non-negativity facts for a finite parse result. -/
lemma pyfNum_spec {x : ℚ} (hx : 0 ≤ x) :
    (∀ q, PyF.num x = PyF.num q → 0 ≤ q) ∧ PyF.num x ≠ PyF.inf true := by
  constructor
  · intro q hq
    obtain rfl : x = q := by simpa using hq
    exact hx
  · simp

/-- An unsigned float literal is never negative and never −∞. -/
lemma floatUnsigned?_spec {cs : List Char} {v : PyF}
    (h : floatUnsigned? cs false = some v) :
    (∀ q, v = PyF.num q → 0 ≤ q) ∧ v ≠ PyF.inf true := by
  unfold floatUnsigned? at h
  split at h
  · obtain rfl : PyF.nan = v := Option.some.inj h
    exact ⟨fun q hq => absurd hq (by simp), by simp⟩
  · split at h
    · obtain rfl : PyF.inf false = v := Option.some.inj h
      exact ⟨fun q hq => absurd hq (by simp), by simp⟩
    · obtain ⟨q0, hq0, rfl⟩ := Option.map_eq_some'.mp h
      simpa using pyfNum_spec (finiteFloat?_nonneg hq0)

/-- A float parse of a string with no minus sign is never negative and
never −∞. -/
lemma pyFloat?_spec {cs : List Char} {v : PyF}
    (hm : '-' ∉ cs) (h : pyFloat? cs = some v) :
    (∀ q, v = PyF.num q → 0 ≤ q) ∧ v ≠ PyF.inf true := by
  unfold pyFloat? at h
  split at h
  · simp at hm
  · exact floatUnsigned?_spec h
  · exact floatUnsigned?_spec h

/-- The fallback number search only produces non-negative values. -/
lemma findNumber?_nonneg {cs : List Char} {q : ℚ}
    (h : findNumber? cs = some q) : 0 ≤ q := by
  induction cs with
  | nil => exact absurd h (by simp [findNumber?])
  | cons c rest ih =>
    rw [findNumber?] at h
    split at h
    · obtain rfl : _ = q := Option.some.inj h
      split
      · positivity
      · positivity
    · exact ih h

/-- C6 amended: for every raw duration input containing no minus sign, the
parsed duration is never a negative number and never −∞: it is a
non-negative number, +∞, or the NaN produced by a case-insensitive NaN
literal (see the counterexample).  TaskRecords built from duration cells
with no minus sign and no NaN literal therefore satisfy plannedHours ≥ 0
and realHours ≥ 0; minus-signed inputs can parse negative. -/
theorem C6_amended_parse_nonneg (raw : Option String) (hm : '-' ∉ rawChars raw) :
    (∀ q, pyParseHoursF raw = PyF.num q → 0 ≤ q) ∧ pyParseHoursF raw ≠ PyF.inf true := by
  cases raw with
  | none => exact pyfNum_spec le_rfl
  | some s =>
    have hcs : '-' ∉ pyStrip s.data := fun hc => hm (pyStrip_subset hc)
    have hcs2 : '-' ∉ (pyStrip s.data).map commaToDot := by
      intro hc
      obtain ⟨c, hcmem, hc2⟩ := List.mem_map.mp hc
      by_cases hcc : c = ','
      · simp [commaToDot, hcc] at hc2
      · rw [commaToDot, if_neg hcc] at hc2
        exact hcs (hc2 ▸ hcmem)
    simp only [pyParseHoursF]
    split
    · exact pyfNum_spec le_rfl
    · split
      · exact pyfNum_spec (by positivity)
      · split
        · rename_i v hv
          exact pyFloat?_spec hcs2 hv
        · split
          · rename_i q hq
            exact pyfNum_spec (findNumber?_nonneg hq)
          · exact pyfNum_spec le_rfl

/-- C6 amended witness at input "4". -/
theorem C6_amended_witness :
    (0 : ℚ) ≤ 4 ∧ pyParseHoursF (some "4") ≠ PyF.inf true :=
  ⟨(C6_amended_parse_nonneg (some "4") (by with_unfolding_all decide)).1 4
      (by with_unfolding_all decide),
   (C6_amended_parse_nonneg (some "4") (by with_unfolding_all decide)).2⟩

/-- C7 counterexample: a completed task whose assignee cell is missing is
dropped by the user aggregation (pandas `groupby` drops `NaN` keys), not
retained as its own group — the output is empty; likewise a task with a
missing sprint cell is dropped by the sprint aggregation. -/
theorem C7_counterexample :
    summarize_hours
      [⟨1, none, "Concluído", some "2", some "1", none, some "S1", none, none⟩] = [] ∧
    get_sprint_summary
      [⟨1, some "A", "Concluído", some "2", some "1", none, none, none, none⟩] = [] := by
  constructor <;> with_unfolding_all decide

/-- C7 amended: rows with a null assignee (resp. sprint) cell contribute to
no group of the user (resp. sprint) aggregation — prepending such a row
changes nothing — while every row with a present assignee key that is
completed (resp. with a present sprint key) is retained as a group of the
respective output; rows with a null or empty epic key are likewise dropped
by the epic aggregation. -/
theorem C7_amended_missing_keys (rows : List Row) (r : Row) :
    (r.assigned_to = none → summarize_hours (r :: rows) = summarize_hours rows) ∧
    (r.story_sprint = none → get_sprint_summary (r :: rows) = get_sprint_summary rows) ∧
    ((r.story_epic = none ∨ r.story_epic = some "") →
      get_epic_summary (r :: rows) = get_epic_summary rows) ∧
    (∀ k, r ∈ rows → isDone r = true → r.assigned_to = some k →
      k ∈ (summarize_hours rows).map fun u => u.assigned_to) ∧
    (∀ k, r ∈ rows → r.story_sprint = some k →
      k ∈ (get_sprint_summary rows).map fun g => g.key) := by
  refine ⟨fun h => ?_, fun h => ?_, fun h => ?_, fun k hr hdone hk => ?_, fun k hr hk => ?_⟩
  · unfold summarize_hours
    by_cases hd : isDone r = true
    · rw [List.filter_cons, if_pos hd]
      simp only [List.filterMap_cons, h]
      refine List.map_congr_left fun k hk => userRowFor_congr k ?_
      have hb : (r.assigned_to == some k) = false := by rw [h]; rfl
      rw [List.filter_cons, hb]
      simp
    · rw [List.filter_cons, if_neg hd]
  · unfold get_sprint_summary
    simp only [List.filterMap_cons, h]
    refine List.map_congr_left fun k hk => groupRowFor_congr k ?_
    have hb : (r.story_sprint == some k) = false := by rw [h]; rfl
    rw [List.filter_cons, hb]
    simp
  · have hb : hasEpic r = false := by
      rcases h with h | h <;> simp [hasEpic, h]
    unfold get_epic_summary
    rw [List.filter_cons, hb]
    simp
  · unfold summarize_hours
    rw [List.map_map]
    have hid : ((fun u : UserRow => u.assigned_to) ∘ userRowFor (rows.filter isDone)) = id := by
      funext k2
      simp [Function.comp]
    rw [hid, List.map_id, mem_insSort, List.mem_dedup, List.mem_filterMap]
    exact ⟨r, List.mem_filter.mpr ⟨hr, hdone⟩, hk⟩
  · unfold get_sprint_summary
    rw [List.map_map]
    have hid : ((fun g : GroupRow => g.key) ∘ groupRowFor rows (fun r2 => r2.story_sprint)) = id := by
      funext k2
      simp [Function.comp]
    rw [hid, List.map_id, mem_insSort, List.mem_dedup, List.mem_filterMap]
    exact ⟨r, hr, hk⟩

/-- C7 amended witness: prepending a null-assignee completed row to a
one-row record set leaves the user aggregation unchanged. -/
theorem C7_amended_witness :
    summarize_hours
      [⟨1, none, "Concluído", some "2", some "1", none, some "S1", none, none⟩,
       ⟨2, some "A", "Concluído", some "4", some "4", none, some "S1", none, none⟩]
      = summarize_hours
          [⟨2, some "A", "Concluído", some "4", some "4", none, some "S1", none, none⟩] :=
  (C7_amended_missing_keys
    [⟨2, some "A", "Concluído", some "4", some "4", none, some "S1", none, none⟩]
    ⟨1, none, "Concluído", some "2", some "1", none, some "S1", none, none⟩).1 rfl

/-- C8 counterexample: `get_epic_summary` is not pure with respect to its
input frame.  On a frame carrying all the columns the function reads (so
the real call completes and returns), it assigns the derived
`planned_hours` / `real_hours` columns into the caller's DataFrame in
place, so a frame without those derived columns is changed by the call. -/
theorem C8_counterexample :
    get_epic_summary_effect
        ⟨[], ["number", "assigned_to", "state", "u_horas_planejadas", "u_horas_reais",
              "story.epic", "story.sprint"]⟩
      ≠ (⟨[], ["number", "assigned_to", "state", "u_horas_planejadas", "u_horas_reais",
               "story.epic", "story.sprint"]⟩ : DF) := by
  with_unfolding_all decide

/-- The four frame effects of the aggregation passes, in source order
(user aggregation reads its own CSV and touches no shared frame). -/
def aggregationEffects : List (DF → DF) :=
  [get_epic_summary_effect, get_sprint_summary_effect,
   get_daily_workload_effect, prepare_tasks_data_effect]

/-- Frame effects only touch the schema, never the task rows. -/
lemma effect_rows (f : DF → DF) (hf : f ∈ aggregationEffects) (df : DF) :
    (f df).rows = df.rows := by
  simp only [aggregationEffects, List.mem_cons] at hf
  rcases hf with rfl | rfl | rfl | rfl | hf
  · unfold get_epic_summary_effect
    split
    · rfl
    · split <;> rfl
  · unfold get_sprint_summary_effect
    split
    · rfl
    · split <;> rfl
  · unfold get_daily_workload_effect
    split <;> rfl
  · rfl
  · exact absurd hf (List.not_mem_nil _)

/-- Column assignment keeps the existing columns. -/
lemma subset_addCol (cols : List String) (c : String) : cols ⊆ addCol cols c := by
  intro x hx
  unfold addCol
  split
  · exact hx
  · exact List.mem_append_left _ hx

/-- Column assignment adds at most the assigned name. -/
lemma mem_addCol {cols : List String} {c c2 : String} (h : c2 ∈ addCol cols c) :
    c2 ∈ cols ∨ c2 = c := by
  unfold addCol at h
  split at h
  · exact Or.inl h
  · rcases List.mem_append.mp h with h | h
    · exact Or.inl h
    · exact Or.inr (List.mem_singleton.mp h)

/-- C8 amended: the epic, sprint and daily-workload passes do write into
the frame they are given — but only the derived columns planned_hours,
real_hours, start_date, end_date (and, when a raw duration column is
missing, a `KeyError` fires before the corresponding assignment, so at
most the earlier derived columns were added); the task rows are untouched
and `prepare_tasks_data` copies first.  Every projection is a function of
the unchanged rows alone, so running the passes in any order yields
identical results. -/
theorem C8_amended_effects (df : DF) (f g : DF → DF)
    (hf : f ∈ aggregationEffects) (hg : g ∈ aggregationEffects) :
    (f df).rows = df.rows ∧
    df.cols ⊆ (f df).cols ∧
    (∀ c ∈ (f df).cols,
      c ∈ df.cols ∨ c ∈ ["planned_hours", "real_hours", "start_date", "end_date"]) ∧
    summarize_hours ((f (g df)).rows) = summarize_hours df.rows ∧
    get_epic_summary ((f (g df)).rows) = get_epic_summary df.rows ∧
    get_sprint_summary ((f (g df)).rows) = get_sprint_summary df.rows ∧
    (∀ b : Bool, get_daily_workload b ((f (g df)).rows) = get_daily_workload b df.rows) := by
  have hrows : (f (g df)).rows = df.rows := by
    rw [effect_rows f hf, effect_rows g hg]
  have hsub : ∀ df2 : DF, df2.cols ⊆ (f df2).cols := by
    intro df2
    simp only [aggregationEffects, List.mem_cons] at hf
    rcases hf with rfl | rfl | rfl | rfl | hf
    · unfold get_epic_summary_effect
      split
      · exact fun x hx => hx
      · split
        · exact subset_addCol _ _
        · exact (subset_addCol _ _).trans (subset_addCol _ _)
    · unfold get_sprint_summary_effect
      split
      · exact fun x hx => hx
      · split
        · exact subset_addCol _ _
        · exact (subset_addCol _ _).trans (subset_addCol _ _)
    · unfold get_daily_workload_effect
      split
      · exact (subset_addCol _ _).trans (subset_addCol _ _)
      · exact fun x hx => hx
    · exact fun x hx => hx
    · exact absurd hf (List.not_mem_nil _)
  have hnew : ∀ c ∈ (f df).cols,
      c ∈ df.cols ∨ c ∈ ["planned_hours", "real_hours", "start_date", "end_date"] := by
    intro c hc
    simp only [aggregationEffects, List.mem_cons] at hf
    have hmem : ∀ {cols : List String} {a b : String}, c ∈ addCol (addCol cols a) b →
        c ∈ cols ∨ c = a ∨ c = b := by
      intro cols a b h
      rcases mem_addCol h with h | h
      · rcases mem_addCol h with h | h
        · exact Or.inl h
        · exact Or.inr (Or.inl h)
      · exact Or.inr (Or.inr h)
    rcases hf with rfl | rfl | rfl | rfl | hf
    · unfold get_epic_summary_effect at hc
      split at hc
      · exact Or.inl hc
      · split at hc
        · rcases mem_addCol hc with h | h
          · exact Or.inl h
          · simp [h]
        · rcases hmem hc with h | h | h <;> simp [h]
    · unfold get_sprint_summary_effect at hc
      split at hc
      · exact Or.inl hc
      · split at hc
        · rcases mem_addCol hc with h | h
          · exact Or.inl h
          · simp [h]
        · rcases hmem hc with h | h | h <;> simp [h]
    · unfold get_daily_workload_effect at hc
      split at hc
      · rcases hmem hc with h | h | h <;> simp [h]
      · exact Or.inl hc
    · exact Or.inl hc
    · exact absurd hf (List.not_mem_nil _)
  exact ⟨effect_rows f hf df, hsub df, hnew,
    by rw [hrows], by rw [hrows], by rw [hrows], fun b => by rw [hrows]⟩

/-- C8 amended witness at a concrete frame and pair of effects. -/
theorem C8_amended_witness :
    (get_epic_summary_effect ⟨[], ["state"]⟩).rows = (⟨[], ["state"]⟩ : DF).rows :=
  (C8_amended_effects ⟨[], ["state"]⟩ get_epic_summary_effect prepare_tasks_data_effect
    (by simp [aggregationEffects]) (by simp [aggregationEffects])).1

/-! ## Lemmas for the daily workload distributor -/

/-- Pointwise sums of rationals split over a list. -/
lemma sum_map_add_q (l : List α) (f g : α → ℚ) :
    (l.map fun x => f x + g x).sum = (l.map f).sum + (l.map g).sum := by
  induction l with
  | nil => simp
  | cons a t ih =>
    simp only [List.map_cons, List.sum_cons, ih]
    ring

/-- Exchange a double sum over days and rows. -/
lemma sum_sum_swap (L : List α) (R : List β) (f : β → α → ℚ) :
    (L.map fun d => (R.map fun r => f r d).sum).sum
      = (R.map fun r => (L.map fun d => f r d).sum).sum := by
  induction R with
  | nil => simp
  | cons r R ih =>
    simp only [List.map_cons, List.sum_cons]
    rw [← ih, ← sum_map_add_q]

/-- Summing a window indicator over an initial segment of ℕ counts the
window. -/
lemma sum_range_indicator (c : ℚ) (a k m : ℕ) :
    ((List.range (a + (k + 1) + m)).map fun i => if a ≤ i ∧ i ≤ a + k then c else 0).sum
      = ((k + 1 : ℕ) : ℚ) * c := by
  rw [List.range_add, List.range_add]
  simp only [List.map_append, List.sum_append, List.map_map]
  have h1 : ((List.range a).map fun i => if a ≤ i ∧ i ≤ a + k then c else 0).sum = 0 := by
    refine List.sum_eq_zero fun x hx => ?_
    obtain ⟨i, hi, rfl⟩ := List.mem_map.mp hx
    rw [List.mem_range] at hi
    exact if_neg (by omega)
  have h2 : ((List.range (k + 1)).map
      ((fun i => if a ≤ i ∧ i ≤ a + k then c else 0) ∘ fun x => a + x)).sum
      = ((k + 1 : ℕ) : ℚ) * c := by
    have he : (List.range (k + 1)).map
        ((fun i => if a ≤ i ∧ i ≤ a + k then c else 0) ∘ fun x => a + x)
        = List.replicate (k + 1) c := by
      refine List.eq_replicate.mpr ⟨by simp, fun b hb => ?_⟩
      obtain ⟨i, hi, rfl⟩ := List.mem_map.mp hb
      rw [List.mem_range] at hi
      simp only [Function.comp_apply]
      exact if_pos (by omega)
    rw [he, List.sum_replicate, nsmul_eq_mul]
  have h3 : ((List.range m).map
      ((fun i => if a ≤ i ∧ i ≤ a + k then c else 0) ∘ fun x => a + (k + 1) + x)).sum = 0 := by
    refine List.sum_eq_zero fun x hx => ?_
    obtain ⟨i, hi, rfl⟩ := List.mem_map.mp hx
    simp only [Function.comp_apply]
    exact if_neg (by omega)
  rw [h1, h2, h3, zero_add, add_zero]

/-- Membership in a `date_range` whose span is a whole number of days. -/
lemma mem_dateRange_whole {s d : ℤ} {k : ℕ} :
    d ∈ dateRange s (s + 86400 * k) ↔ ∃ j : ℕ, j ≤ k ∧ d = s + 86400 * j := by
  unfold dateRange pdDays
  rw [show s + 86400 * (k : ℤ) - s = 86400 * k by ring,
    show ((86400 * (k : ℤ)) / 86400 + 1).toNat = k + 1 by omega]
  simp only [List.mem_map, List.mem_range]
  constructor
  · rintro ⟨j, hj, rfl⟩
    exact ⟨j, by omega, rfl⟩
  · rintro ⟨j, hj, rfl⟩
    exact ⟨j, by omega, rfl⟩

/-- Unfold one task's contribution once its dates are known. -/
lemma dailyContrib_eq (hoursOf : Row → ℚ) (r : Row) {s e : ℤ}
    (hs : r.start_date = some s) (he : r.end_date = some e) (d : ℤ) :
    dailyContrib hoursOf r d
      = if 0 < pdDays (e - s) + 1 ∧ d ∈ dateRange s e then
          hoursOf r / ((pdDays (e - s) + 1 : ℤ) : ℚ)
        else 0 := by
  unfold dailyContrib
  rw [hs, he]

/-- A task whose whole-day window starts `a` days into a whole-day global
index of `n + 1` days distributes exactly its total hours over the
index. -/
lemma sum_dateRange_dailyContrib (hoursOf : Row → ℚ) (r : Row) (S : ℤ) (n a k : ℕ)
    (hs : r.start_date = some (S + 86400 * a))
    (he : r.end_date = some (S + 86400 * a + 86400 * k))
    (hak : a + k ≤ n) :
    ((dateRange S (S + 86400 * n)).map fun d => dailyContrib hoursOf r d).sum
      = hoursOf r := by
  have hrange : dateRange S (S + 86400 * n)
      = (List.range (n + 1)).map fun i : ℕ => S + 86400 * (i : ℤ) := by
    unfold dateRange pdDays
    rw [show S + 86400 * (n : ℤ) - S = 86400 * n by ring,
      show ((86400 * (n : ℤ)) / 86400 + 1).toNat = n + 1 by omega]
  rw [hrange, List.map_map]
  have hpoint : ∀ i ∈ List.range (n + 1),
      ((fun d => dailyContrib hoursOf r d) ∘ fun i : ℕ => S + 86400 * (i : ℤ)) i
        = if a ≤ i ∧ i ≤ a + k then
            hoursOf r / ((pdDays (86400 * (k : ℤ)) + 1 : ℤ) : ℚ)
          else 0 := by
    intro i hi
    simp only [Function.comp_apply]
    rw [dailyContrib_eq hoursOf r hs he,
      show S + 86400 * (a : ℤ) + 86400 * (k : ℤ) - (S + 86400 * (a : ℤ))
        = 86400 * (k : ℤ) by ring]
    have hpos : 0 < pdDays (86400 * (k : ℤ)) + 1 := by
      unfold pdDays
      omega
    by_cases hik : a ≤ i ∧ i ≤ a + k
    · have hmem : (S + 86400 * (i : ℤ))
          ∈ dateRange (S + 86400 * (a : ℤ)) (S + 86400 * (a : ℤ) + 86400 * (k : ℤ)) :=
        mem_dateRange_whole.mpr ⟨i - a, by omega, by omega⟩
      rw [if_pos ⟨hpos, hmem⟩, if_pos hik]
    · have hnot : ¬ (0 < pdDays (86400 * (k : ℤ)) + 1 ∧ (S + 86400 * (i : ℤ))
          ∈ dateRange (S + 86400 * (a : ℤ)) (S + 86400 * (a : ℤ) + 86400 * (k : ℤ))) := by
        rintro ⟨hp, hmem⟩
        obtain ⟨j, hj, hje⟩ := mem_dateRange_whole.mp hmem
        exact hik ⟨by omega, by omega⟩
      rw [if_neg hnot, if_neg hik]
  rw [List.map_congr_left hpoint,
    show n + 1 = a + (k + 1) + (n - (a + k)) by omega, sum_range_indicator,
    show (pdDays (86400 * (k : ℤ)) + 1 : ℤ) = ((k + 1 : ℕ) : ℤ) from by unfold pdDays; omega]
  push_cast
  exact mul_div_cancel₀ _ (by positivity)

/-- The series minimum bounds every member from below. -/
lemma listMin?_le : ∀ {l : List ℤ} {m : ℤ}, listMin? l = some m → ∀ x ∈ l, m ≤ x := by
  intro l
  induction l with
  | nil => intro m hm; simp [listMin?] at hm
  | cons a t ih =>
    intro m hm x hx
    rcases List.mem_cons.mp hx with rfl | hx
    · cases ht : listMin? t with
      | none =>
        rw [listMin?, ht] at hm
        exact le_of_eq (Option.some.inj hm).symm
      | some mt =>
        rw [listMin?, ht] at hm
        rw [← Option.some.inj hm]
        exact min_le_left _ _
    · cases ht : listMin? t with
      | none =>
        exfalso
        cases t with
        | nil => exact List.not_mem_nil _ hx
        | cons b tb =>
          rw [listMin?] at ht
          revert ht
          cases listMin? tb <;> simp
      | some mt =>
        rw [listMin?, ht] at hm
        rw [← Option.some.inj hm]
        exact le_trans (min_le_right _ _) (ih ht x hx)

/-- The series maximum bounds every member from above. -/
lemma listMax?_ge : ∀ {l : List ℤ} {m : ℤ}, listMax? l = some m → ∀ x ∈ l, x ≤ m := by
  intro l
  induction l with
  | nil => intro m hm; simp [listMax?] at hm
  | cons a t ih =>
    intro m hm x hx
    rcases List.mem_cons.mp hx with rfl | hx
    · cases ht : listMax? t with
      | none =>
        rw [listMax?, ht] at hm
        exact le_of_eq (Option.some.inj hm)
      | some mt =>
        rw [listMax?, ht] at hm
        rw [← Option.some.inj hm]
        exact le_max_left _ _
    · cases ht : listMax? t with
      | none =>
        exfalso
        cases t with
        | nil => exact List.not_mem_nil _ hx
        | cons b tb =>
          rw [listMax?] at ht
          revert ht
          cases listMax? tb <;> simp
      | some mt =>
        rw [listMax?, ht] at hm
        rw [← Option.some.inj hm]
        exact le_trans (ih ht x hx) (le_max_right _ _)

/-- The series minimum is one of the members. -/
lemma listMin?_mem : ∀ {l : List ℤ} {m : ℤ}, listMin? l = some m → m ∈ l := by
  intro l
  induction l with
  | nil => intro m hm; simp [listMin?] at hm
  | cons a t ih =>
    intro m hm
    cases ht : listMin? t with
    | none =>
      rw [listMin?, ht] at hm
      exact (Option.some.inj hm) ▸ List.mem_cons_self _ _
    | some mt =>
      rw [listMin?, ht] at hm
      obtain rfl := Option.some.inj hm
      show min a mt ∈ a :: t
      rcases le_total a mt with h | h
      · rw [min_eq_left h]
        exact List.mem_cons_self _ _
      · rw [min_eq_right h]
        exact List.mem_cons.mpr (Or.inr (ih ht))

/-- The series maximum is one of the members. -/
lemma listMax?_mem : ∀ {l : List ℤ} {m : ℤ}, listMax? l = some m → m ∈ l := by
  intro l
  induction l with
  | nil => intro m hm; simp [listMax?] at hm
  | cons a t ih =>
    intro m hm
    cases ht : listMax? t with
    | none =>
      rw [listMax?, ht] at hm
      exact (Option.some.inj hm) ▸ List.mem_cons_self _ _
    | some mt =>
      rw [listMax?, ht] at hm
      obtain rfl := Option.some.inj hm
      show max a mt ∈ a :: t
      rcases le_total a mt with h | h
      · rw [max_eq_right h]
        exact List.mem_cons.mpr (Or.inr (ih ht))
      · rw [max_eq_left h]
        exact List.mem_cons_self _ _

/-- A task's contribution on an index day it covers is its hours divided
by its inclusive day span. -/
lemma dailyContrib_pos (hoursOf : Row → ℚ) (r : Row) (d : ℤ) {s e : ℤ}
    (hs : r.start_date = some s) (he : r.end_date = some e)
    (hpos : 0 < pdDays (e - s) + 1) (hmem : d ∈ dateRange s e) :
    dailyContrib hoursOf r d = hoursOf r / ((pdDays (e - s) + 1 : ℤ) : ℚ) := by
  rw [dailyContrib_eq hoursOf r hs he, if_pos ⟨hpos, hmem⟩]

/-- A task contributes nothing on an index day outside its own date range
(the line-196 membership guard, seen from the task's side). -/
lemma dailyContrib_notMem (hoursOf : Row → ℚ) (r : Row) (d : ℤ) {s e : ℤ}
    (hs : r.start_date = some s) (he : r.end_date = some e)
    (hmem : d ∉ dateRange s e) :
    dailyContrib hoursOf r d = 0 := by
  rw [dailyContrib_eq hoursOf r hs he, if_neg fun h => hmem h.2]

/-- Two tasks have non-overlapping sprint windows. -/
def windowsDisjoint (r1 r2 : Row) : Prop :=
  ∀ s1 e1 s2 e2, r1.start_date = some s1 → r1.end_date = some e1 →
    r2.start_date = some s2 → r2.end_date = some e2 → (e1 < s2 ∨ e2 < s1)

/-- One-day task with 4 planned hours starting and ending at timestamp 0
(midnight). -/
def taskMidnight : Row :=
  ⟨1, some "A", "Concluído", some "4", some "0", none, some "S1", some 0, some 0⟩

/-- One-day task with 6 planned hours starting and ending at timestamp
43200 (noon): 12 hours after `taskMidnight`, so misaligned with the
global index that steps in whole days from the earliest start. -/
def taskNoon : Row :=
  ⟨2, some "B", "Aberto", some "6", some "0", none, some "S1", some 43200, some 43200⟩

/-- C3 counterexample: conservation fails for time-misaligned tasks.  Two
disjoint, well-ordered one-day tasks, the second starting 12 hours
(43200 s) after the first: the global index steps from the earliest start
(timestamp 0), so the second task's date (43200) is not in the index —
the `if date in daily_load.index` guard of line 196 fails — and its 6
planned hours are dropped: the distributed total is 4, not 10. -/
theorem C3_counterexample :
    get_daily_workload true [taskMidnight, taskNoon] = some [⟨0, 4, 0⟩] ∧
    List.Pairwise windowsDisjoint [taskMidnight, taskNoon] ∧
    (([⟨0, 4, 0⟩] : List DailyLoadPoint).map fun p => p.planned_hours).sum = 4 ∧
    ([taskMidnight, taskNoon].map plannedOf).sum = 10 := by
  have hpA : plannedOf taskMidnight = 4 := by with_unfolding_all decide
  have hpB : plannedOf taskNoon = 6 := by with_unfolding_all decide
  have hrA : realOf taskMidnight = 0 := by with_unfolding_all decide
  refine ⟨?_, ?_, by simp, ?_⟩
  · have hstep : get_daily_workload true [taskMidnight, taskNoon]
        = some ((dateRange 0 43200).map fun d =>
            ⟨d, ([taskMidnight, taskNoon].map fun r => dailyContrib plannedOf r d).sum,
                ([taskMidnight, taskNoon].map fun r => dailyContrib realOf r d).sum⟩) := by
      with_unfolding_all rfl
    rw [hstep, show dateRange 0 43200 = [0] from by decide]
    simp only [List.map_cons, List.map_nil, List.sum_cons, List.sum_nil, add_zero]
    rw [dailyContrib_pos plannedOf taskMidnight 0 rfl rfl (by decide) (by decide),
      dailyContrib_pos realOf taskMidnight 0 rfl rfl (by decide) (by decide),
      dailyContrib_notMem plannedOf taskNoon 0 rfl rfl (by decide),
      dailyContrib_notMem realOf taskNoon 0 rfl rfl (by decide),
      hpA, hrA, show (pdDays (0 - 0) + 1 : ℤ) = 1 from by decide]
    norm_num
  · constructor
    · intro r2 hr2
      rw [List.mem_singleton] at hr2
      subst hr2
      intro s1 e1 s2 e2 h1 h2 h3 h4
      obtain rfl : e1 = 0 := Option.some.inj h2.symm
      obtain rfl : s2 = 43200 := Option.some.inj h3.symm
      exact Or.inl (by omega)
    · exact List.pairwise_singleton _ _
  · simp only [List.map_cons, List.map_nil, List.sum_cons, List.sum_nil, add_zero,
      hpA, hpB]
    norm_num

/-- Task with 9 planned hours spanning 3 inclusive days: start at
timestamp 0 and end at 172800 (2 days later), both at midnight. -/
def taskThreeDays : Row :=
  ⟨1, some "A", "Concluído", some "9", some "0", none, some "S1", some 0, some 172800⟩

/-- Task with 4 planned and 6 real hours spanning 2 inclusive days
(345600 to 432000, i.e. days 4 to 5), midnight-aligned and disjoint from
`taskThreeDays`. -/
def taskLater : Row :=
  ⟨2, some "B", "Aberto", some "4", some "6", none, some "S1", some 345600, some 432000⟩

/-- C3 amended: the distributor spreads hours uniformly over each task's
inclusive day span — a single task over 3 inclusive days (start 0,
end 172800 = 2 days later) with 9 planned hours puts exactly 3.0 planned
hours on each of the 3 days — and conservation holds for record sets
whose sprint timestamps all share one time-of-day: for every nonempty
record set in which each task's start is the common base plus a whole
number of days and its end a whole number of days after its start, with
pairwise non-overlapping windows, summing plannedHours (resp. realHours)
over all DailyLoadPoints recovers the sum of the tasks' plannedHours
(resp. realHours) exactly (the model computes in ℚ, so "up to floating
rounding" becomes exact equality).  Tasks misaligned with the global
start's time-of-day lose their hours (see the counterexample). -/
theorem C3_daily_workload_amended :
    get_daily_workload true [taskThreeDays]
      = some [⟨0, 3, 0⟩, ⟨86400, 3, 0⟩, ⟨172800, 3, 0⟩] ∧
    (∀ (rows : List Row) (t : ℤ), rows ≠ [] →
      (∀ r ∈ rows, ∃ a k : ℕ,
        r.start_date = some (t + 86400 * a) ∧ r.end_date = some (t + 86400 * (a + k))) →
      rows.Pairwise windowsDisjoint →
      ∃ pts, get_daily_workload true rows = some pts ∧
        (pts.map fun p => p.planned_hours).sum = (rows.map plannedOf).sum ∧
        (pts.map fun p => p.real_hours).sum = (rows.map realOf).sum) := by
  constructor
  · have hstep : get_daily_workload true [taskThreeDays]
        = some ((dateRange 0 172800).map fun d =>
            ⟨d, ([taskThreeDays].map fun r => dailyContrib plannedOf r d).sum,
                ([taskThreeDays].map fun r => dailyContrib realOf r d).sum⟩) := by
      with_unfolding_all rfl
    have hpv : plannedOf taskThreeDays = 9 := by with_unfolding_all decide
    have hrv : realOf taskThreeDays = 0 := by with_unfolding_all decide
    have h3 : (pdDays (172800 - 0) + 1 : ℤ) = 3 := by decide
    have hone : ∀ d : ℤ, d ∈ dateRange 0 172800 →
        dailyContrib plannedOf taskThreeDays d = 3
          ∧ dailyContrib realOf taskThreeDays d = 0 := by
      intro d hd
      constructor
      · rw [dailyContrib_pos plannedOf taskThreeDays d rfl rfl (by decide) hd, hpv, h3]
        norm_num
      · rw [dailyContrib_pos realOf taskThreeDays d rfl rfl (by decide) hd, hrv, h3]
        norm_num
    rw [hstep, show dateRange 0 172800 = [0, 86400, 172800] from by decide]
    simp only [List.map_cons, List.map_nil, List.sum_cons, List.sum_nil, add_zero]
    rw [(hone 0 (by decide)).1, (hone 0 (by decide)).2,
      (hone 86400 (by decide)).1, (hone 86400 (by decide)).2,
      (hone 172800 (by decide)).1, (hone 172800 (by decide)).2]
  · intro rows t hne hdates hdisj
    have hboth : ∀ r ∈ rows, bothDates r = true := by
      intro r hr
      obtain ⟨a, k, hs, he⟩ := hdates r hr
      simp [bothDates, hs, he]
    have hwd : rows.filter bothDates = rows := List.filter_eq_self.mpr hboth
    obtain ⟨r0, rs, rfl⟩ : ∃ r0 rs, rows = r0 :: rs := by
      cases rows with
      | nil => exact absurd rfl hne
      | cons a2 t2 => exact ⟨a2, t2, rfl⟩
    obtain ⟨a0, k0, hs0, he0⟩ := hdates r0 (List.mem_cons_self _ _)
    have hall1 : ((r0 :: rs).all fun r => r.start_date == none) = false := by
      rw [List.all_eq_false]
      exact ⟨r0, List.mem_cons_self _ _, by simp [hs0]⟩
    have hall2 : ((r0 :: rs).all fun r => r.end_date == none) = false := by
      rw [List.all_eq_false]
      exact ⟨r0, List.mem_cons_self _ _, by simp [he0]⟩
    obtain ⟨S, hS⟩ :
        ∃ S, listMin? ((r0 :: rs).filterMap fun r => r.start_date) = some S := by
      have h : (r0 :: rs).filterMap (fun r => r.start_date)
          = (t + 86400 * a0) :: rs.filterMap (fun r => r.start_date) := by
        simp [List.filterMap_cons, hs0]
      rw [h, listMin?]
      exact ⟨_, rfl⟩
    obtain ⟨E, hE⟩ :
        ∃ E, listMax? ((r0 :: rs).filterMap fun r => r.end_date) = some E := by
      have h : (r0 :: rs).filterMap (fun r => r.end_date)
          = (t + 86400 * (a0 + k0)) :: rs.filterMap (fun r => r.end_date) := by
        simp [List.filterMap_cons, he0]
      rw [h, listMax?]
      exact ⟨_, rfl⟩
    obtain ⟨rS, hrS, hrSs⟩ := List.mem_filterMap.mp (listMin?_mem hS)
    obtain ⟨aS, kS, hsS, heS⟩ := hdates rS hrS
    have hSval : S = t + 86400 * aS := by
      rw [hsS] at hrSs
      exact (Option.some.inj hrSs).symm
    obtain ⟨rE, hrE, hrEe⟩ := List.mem_filterMap.mp (listMax?_mem hE)
    obtain ⟨aE, kE, hsE, heE⟩ := hdates rE hrE
    have hEval : E = t + 86400 * (aE + kE) := by
      rw [heE] at hrEe
      exact (Option.some.inj hrEe).symm
    have hSle : ∀ r ∈ r0 :: rs, ∀ s, r.start_date = some s → S ≤ s := by
      intro r hr s hs
      exact listMin?_le hS s (List.mem_filterMap.mpr ⟨r, hr, hs⟩)
    have hEge : ∀ r ∈ r0 :: rs, ∀ e, r.end_date = some e → e ≤ E := by
      intro r hr e he
      exact listMax?_ge hE e (List.mem_filterMap.mpr ⟨r, hr, he⟩)
    have hSE : S ≤ E := by
      have h1 : S ≤ t + 86400 * a0 := hSle r0 (List.mem_cons_self _ _) _ hs0
      have h2 : t + 86400 * (a0 + k0) ≤ E := hEge r0 (List.mem_cons_self _ _) _ he0
      omega
    have haSbE : aS ≤ aE + kE := by omega
    have hEeq : E = S + 86400 * ((aE + kE - aS : ℕ) : ℤ) := by omega
    have hperTask : ∀ hoursOf : Row → ℚ, ∀ r ∈ r0 :: rs,
        ((dateRange S E).map fun d => dailyContrib hoursOf r d).sum = hoursOf r := by
      intro hoursOf r hr
      obtain ⟨a, k, hs, he⟩ := hdates r hr
      have haS : aS ≤ a := by
        have h1 := hSle r hr _ hs
        omega
      have hbound : (a - aS) + k ≤ aE + kE - aS := by
        have h1 := hEge r hr _ he
        omega
      have hs2 : r.start_date = some (S + 86400 * ((a - aS : ℕ) : ℤ)) := by
        rw [hs]
        congr 1
        omega
      have he2 : r.end_date
          = some (S + 86400 * ((a - aS : ℕ) : ℤ) + 86400 * (k : ℤ)) := by
        rw [he]
        congr 1
        omega
      rw [hEeq]
      exact sum_dateRange_dailyContrib hoursOf r S (aE + kE - aS) (a - aS) k hs2 he2 hbound
    unfold get_daily_workload
    rw [hall1, hall2, hwd, hS, hE]
    refine ⟨_, rfl, ?_, ?_⟩
    · rw [List.map_map]
      have hproj : ((fun p : DailyLoadPoint => p.planned_hours) ∘ fun d =>
          (⟨d, ((r0 :: rs).map fun r => dailyContrib plannedOf r d).sum,
              ((r0 :: rs).map fun r => dailyContrib realOf r d).sum⟩ : DailyLoadPoint))
          = fun d => ((r0 :: rs).map fun r => dailyContrib plannedOf r d).sum := rfl
      rw [hproj, sum_sum_swap]
      exact congrArg List.sum (List.map_congr_left (hperTask plannedOf))
    · rw [List.map_map]
      have hproj : ((fun p : DailyLoadPoint => p.real_hours) ∘ fun d =>
          (⟨d, ((r0 :: rs).map fun r => dailyContrib plannedOf r d).sum,
              ((r0 :: rs).map fun r => dailyContrib realOf r d).sum⟩ : DailyLoadPoint))
          = fun d => ((r0 :: rs).map fun r => dailyContrib realOf r d).sum := rfl
      rw [hproj, sum_sum_swap]
      exact congrArg List.sum (List.map_congr_left (hperTask realOf))

/-- C3 amended witness for the conservation part, at a two-task record
set with aligned timestamps and disjoint windows. -/
theorem C3_amended_witness :
    ∃ pts, get_daily_workload true [taskThreeDays, taskLater] = some pts ∧
      (pts.map fun p => p.planned_hours).sum
        = ([taskThreeDays, taskLater].map plannedOf).sum ∧
      (pts.map fun p => p.real_hours).sum
        = ([taskThreeDays, taskLater].map realOf).sum :=
  C3_daily_workload_amended.2 [taskThreeDays, taskLater] 0
    (by simp)
    (by
      intro r hr
      rcases List.mem_cons.mp hr with rfl | hr
      · exact ⟨0, 2, by norm_num [taskThreeDays], by norm_num [taskThreeDays]⟩
      · rw [List.mem_singleton] at hr
        subst hr
        exact ⟨4, 1, by norm_num [taskLater], by norm_num [taskLater]⟩)
    (by
      constructor
      · intro r2 hr2
        rw [List.mem_singleton] at hr2
        subst hr2
        intro s1 e1 s2 e2 h1 h2 h3 h4
        obtain rfl : e1 = 172800 := Option.some.inj h2.symm
        obtain rfl : s2 = 345600 := Option.some.inj h3.symm
        exact Or.inl (by omega)
      · exact List.pairwise_singleton _ _)

end HoursReport
